import Mathlib

/-!
Shallow embedding of the WeatherImagesApi image-hosting service
(`src/WeatherImagesApi/main.py`), together with proofs about its
upload/delete/startup behaviour.

Modelling conventions:
* The process state is `ServerState`: the in-memory metadata map, the content
  of the on-disk JSON metadata document (`images_metadata.json`), and the two
  image directories (`uploaded_images/` and `images/`) as association lists
  from filename to stored file.
* External effects are explicit parameters: the result of PIL `Image.open` on
  the uploaded bytes (`decoded : Option PILImage`), the fresh uuid4 string
  (`image_id`), the byte size of the file produced by `resized_image.save`
  (`saved_size`), and whether the written file can be re-opened by PIL when
  `get_image_info` inspects it (`saved_readable`).
* FastAPI's `APIKeyHeader(auto_error=False)` hands the handler the header
  value, with a missing header surfacing as a falsy value; `get_api_key`
  therefore takes an `Option String` and treats `none` and `some ""` alike,
  exactly as `if not api_key_header:` does.
* Handlers return the post-state together with `Except HTTPException result`;
  an `HTTPException` carries the status code and detail string raised in the
  source.
-/

namespace ImageApi

/-- Width/height pair, as in the `dimensions` dictionaries of the source. -/
structure Dims where
  width : Nat
  height : Nat
deriving DecidableEq

/-- A decoded PIL image: width, height, format and mode. -/
structure PILImage where
  width : Nat
  height : Nat
  format : String
  mode : String
deriving DecidableEq

/-- `img.resize((w, h))`: same pixel data semantics are irrelevant here; the
result has exactly the requested dimensions. -/
def PILImage.resize (img : PILImage) (w h : Nat) : PILImage :=
  { img with width := w, height := h }

/-- A file on disk: the image it encodes, its size in bytes as reported by
`os.path.getsize`, and whether PIL can open it again (`readable = false`
models a file `Image.open` fails on). -/
structure StoredFile where
  img : PILImage
  size : Nat
  readable : Bool
deriving DecidableEq

/-- A directory: association list from filename to stored file. -/
abbrev Dir := List (String × StoredFile)

/-- `os.path.exists` / opening a file in a directory. -/
def Dir.lookup (d : Dir) (fn : String) : Option StoredFile :=
  List.lookup fn d

/-- Writing a file: overwrite the entry with this filename if present,
otherwise create it. -/
def Dir.setFile : Dir → String → StoredFile → Dir
  | [], fn, f => [(fn, f)]
  | (k, v) :: rest, fn, f =>
    if k = fn then (fn, f) :: rest else (k, v) :: Dir.setFile rest fn f

/-- `os.remove`: drop the entry with this filename (no-op when absent). -/
def Dir.removeFile : Dir → String → Dir
  | [], _ => []
  | (k, v) :: rest, fn =>
    if k = fn then rest else (k, v) :: Dir.removeFile rest fn

/-- `round(size_bytes / 1024, 2)` used for `size_kb`. The quotient
`size_bytes / 1024` is exact in binary floating point and CPython rounds it
half-to-even at two decimals, so the result is the rational
`hundredths / 100` with `hundredths` the half-even rounding of
`size_bytes * 100 / 1024 = size_bytes * 25 / 256`. -/
def round2Div1024 (size : Nat) : ℚ :=
  let numerator := size * 25
  let whole := numerator / 256
  let rem := numerator % 256
  let hundredths : Nat :=
    if rem < 128 then whole
    else if 128 < rem then whole + 1
    else if whole % 2 = 0 then whole else whole + 1
  mkRat hundredths 100

/-- Python `str.lower` on the character sequence. -/
def pyLower (s : String) : String :=
  ⟨s.data.map Char.toLower⟩

/-- Python `str.endswith`. -/
def pyEndsWith (s post : String) : Bool :=
  List.isSuffixOf post.data s.data

/-- Python `str.split` with a one-character separator, on the character
sequence: `"".split(".") = [""]`, `"a.b".split(".") = ["a", "b"]`,
`"a.".split(".") = ["a", ""]`. -/
def pySplitChar (sep : Char) : List Char → List (List Char)
  | [] => [[]]
  | c :: rest =>
    let r := pySplitChar sep rest
    if c = sep then [] :: r
    else
      match r with
      | [] => [[c]]
      | h :: t => (c :: h) :: t

/-- `name.split(".")[-1]`: the part of a filename after its last dot (the
whole name when it has no dot). -/
def lastDotComponent (s : String) : String :=
  ⟨(pySplitChar '.' s.data).getLastD []⟩

/-- The dictionary returned by `get_image_info`. -/
structure ImageInfo where
  dimensions : Dims
  format : String
  mode : String
  size_bytes : Nat
  size_kb : ℚ
deriving DecidableEq

/-- `get_image_info(filepath)`: opens the image at the path and returns its
info, or `None` when the file is absent or cannot be decoded. -/
def get_image_info (dir : Dir) (fn : String) : Option ImageInfo :=
  match Dir.lookup dir fn with
  | none => none
  | some f =>
    if f.readable then
      some { dimensions := ⟨f.img.width, f.img.height⟩,
             format := f.img.format,
             mode := f.img.mode,
             size_bytes := f.size,
             size_kb := round2Div1024 f.size }
    else none

/-- One entry of the metadata map, with the fields the source stores
(`original_dimensions` is `none` for project records). -/
structure ImageRecord where
  id : String
  filename : String
  url : String
  source : String
  dimensions : Dims
  format : String
  mode : String
  size_bytes : Nat
  size_kb : ℚ
  original_dimensions : Option Dims
deriving DecidableEq

/-- The metadata map, a Python dict keyed by image id (insertion ordered). -/
abbrev Metadata := List (String × ImageRecord)

/-- Dict lookup `metadata[image_id]` / membership `image_id in metadata`. -/
def Metadata.lookup (m : Metadata) (k : String) : Option ImageRecord :=
  List.lookup k m

/-- Dict assignment `metadata[image_id] = record`: replace in place when the
key exists, append otherwise. -/
def Metadata.insert : Metadata → String → ImageRecord → Metadata
  | [], k, v => [(k, v)]
  | (k', v') :: rest, k, v =>
    if k' = k then (k, v) :: rest else (k', v') :: Metadata.insert rest k v

/-- `del metadata[image_id]`. -/
def Metadata.erase : Metadata → String → Metadata
  | [], _ => []
  | (k', v') :: rest, k =>
    if k' = k then rest else (k', v') :: Metadata.erase rest k

/-- `metadata.values()`. -/
def Metadata.values (m : Metadata) : List ImageRecord :=
  m.map Prod.snd

/-- An error response: HTTP status code plus detail message. -/
structure HTTPException where
  status : Nat
  detail : String
deriving DecidableEq

instance {ε α : Type} [DecidableEq ε] [DecidableEq α] :
    DecidableEq (Except ε α) := fun x y =>
  match x, y with
  | .ok a, .ok b =>
    if h : a = b then isTrue (by rw [h])
    else isFalse (by intro hc; cases hc; exact h rfl)
  | .error a, .error b =>
    if h : a = b then isTrue (by rw [h])
    else isFalse (by intro hc; cases hc; exact h rfl)
  | .ok _, .error _ => isFalse (by intro h; cases h)
  | .error _, .ok _ => isFalse (by intro h; cases h)

/-- The whole mutable state of the process: the in-memory map, the content of
`images_metadata.json` (`none` when the file does not exist), and the two
image directories. -/
structure ServerState where
  metadata : Metadata
  diskMeta : Option Metadata
  uploadedDir : Dir
  projectDir : Dir
deriving DecidableEq

/-- `get_api_key`: the dependency guarding the mutating endpoints. A missing
header reaches the function as a falsy value, so `none` and `some ""` both
trigger `if not api_key_header:`. -/
def get_api_key (api_key : String) (header : Option String) :
    Except HTTPException String :=
  let provided := header.getD ""
  if provided = "" then .error ⟨403, "No API key provided"⟩
  else if provided ≠ api_key then .error ⟨403, "Invalid API key"⟩
  else .ok provided

/-- The JSON body returned by a successful delete. -/
structure DeleteResponse where
  message : String
  id : String
  filename : String
deriving DecidableEq

/-- `GET /api/images/{image_id}`: look the record up, find its file in the
directory selected by `source`, and return the bytes with media type
`image/{format lowercased}`. -/
def get_image (st : ServerState) (image_id : String) :
    Except HTTPException (StoredFile × String) :=
  match Metadata.lookup st.metadata image_id with
  | none => .error ⟨404, "Image not found"⟩
  | some image_data =>
    let dir := if image_data.source = "uploaded" then st.uploadedDir
               else st.projectDir
    match Dir.lookup dir image_data.filename with
    | none => .error ⟨404, "Image file not found"⟩
    | some f => .ok (f, "image/" ++ image_data.format.toLower)

/-- `DELETE /api/images/{image_id}`. Returns the post-state together with the
response or the raised `HTTPException`. -/
def delete_image (api_key : String) (header : Option String)
    (st : ServerState) (image_id : String) :
    ServerState × Except HTTPException DeleteResponse :=
  match get_api_key api_key header with
  | .error e => (st, .error e)
  | .ok _ =>
    match Metadata.lookup st.metadata image_id with
    | none => (st, .error ⟨404, "Image not found"⟩)
    | some image_data =>
      if image_data.source = "project" then
        (st, .error ⟨403, "Cannot delete project images"⟩)
      else
        let meta' := Metadata.erase st.metadata image_id
        ({ st with
             uploadedDir := Dir.removeFile st.uploadedDir image_data.filename,
             metadata := meta',
             diskMeta := some meta' },
         .ok ⟨"Image deleted successfully", image_id, image_data.filename⟩)

/-- The accepted extensions tuple of the source. -/
def validExtensions : List String :=
  [".png", ".jpg", ".jpeg", ".gif", ".bmp"]

/-- `any(filename.lower().endswith(ext) for ext in (...))`. -/
def hasValidExt (fn : String) : Bool :=
  validExtensions.any (fun ext => pyEndsWith (pyLower fn) ext)

/-- The filename-resolution block of `upload_image`: a caller-supplied truthy
filename must have a valid extension and must not collide with an existing
record's filename; otherwise the name `{image_id}.{last dot component of the
uploaded file's name}` is synthesized. -/
def resolve_filename (st : ServerState) (form_filename : Option String)
    (image_id file_filename : String) : Except HTTPException String :=
  if (form_filename.getD "") ≠ "" then
    let fn := form_filename.getD ""
    if ¬ hasValidExt fn then
      .error ⟨400,
        "Filename must have a valid image extension (.png, .jpg, .jpeg, .gif, .bmp)"⟩
    else if (Metadata.values st.metadata).any (fun img => img.filename = fn) then
      .error ⟨400, "An image with filename " ++ fn ++ " already exists"⟩
    else .ok fn
  else
    .ok (image_id ++ "." ++ lastDotComponent file_filename)

/-- `POST /api/images`. Parameters beyond the request: `decoded` is the
result of `Image.open` on the uploaded bytes, `image_id` the fresh uuid4,
`saved_size` the byte size of the written file, `saved_readable` whether
`get_image_info` can re-open it. -/
def upload_image (api_key : String) (header : Option String)
    (st : ServerState) (file_filename : String) (form_filename : Option String)
    (decoded : Option PILImage) (image_id : String)
    (saved_size : Nat) (saved_readable : Bool) :
    ServerState × Except HTTPException ImageRecord :=
  match get_api_key api_key header with
  | .error e => (st, .error e)
  | .ok _ =>
    match decoded with
    | none => (st, .error ⟨500, "cannot identify image file"⟩)
    | some image =>
      let resized := image.resize 100 100
      match resolve_filename st form_filename image_id file_filename with
      | .error e => (st, .error e)
      | .ok unique_filename =>
        let dir' := Dir.setFile st.uploadedDir unique_filename
          ⟨resized, saved_size, saved_readable⟩
        match get_image_info dir' unique_filename with
        | none =>
          ({ st with uploadedDir := Dir.removeFile dir' unique_filename },
           .error ⟨500, "Failed to process uploaded image"⟩)
        | some info =>
          let newRecord : ImageRecord :=
            { id := image_id,
              filename := unique_filename,
              url := "/uploaded/" ++ unique_filename,
              source := "uploaded",
              dimensions := info.dimensions,
              format := info.format,
              mode := info.mode,
              size_bytes := info.size_bytes,
              size_kb := info.size_kb,
              original_dimensions := some ⟨image.width, image.height⟩ }
          let meta' := Metadata.insert st.metadata image_id newRecord
          ({ st with uploadedDir := dir', metadata := meta',
                     diskMeta := some meta' },
           .ok newRecord)

/-- The record built for a project image during the startup scan. -/
def projectRecord (image_id fn : String) (info : ImageInfo) : ImageRecord :=
  { id := image_id,
    filename := fn,
    url := "/images/" ++ fn,
    source := "project",
    dimensions := info.dimensions,
    format := info.format,
    mode := info.mode,
    size_bytes := info.size_bytes,
    size_kb := info.size_kb,
    original_dimensions := none }

/-- The `for filename in os.listdir(PROJECT_IMAGES_DIR)` loop of the startup
block: `gen n` is the uuid4 drawn for the n-th registered candidate. -/
def scanProject (dir : Dir) (gen : Nat → String) :
    List String → Nat → Metadata → Metadata
  | [], _, m => m
  | fn :: rest, n, m =>
    if hasValidExt fn then
      match get_image_info dir fn with
      | some info =>
        scanProject dir gen rest (n + 1)
          (Metadata.insert m (gen n) (projectRecord (gen n) fn info))
      | none => scanProject dir gen rest (n + 1) m
    else scanProject dir gen rest n m

/-- The module-level startup code: `metadata = load_metadata()` (the document
content, `{}` when the file is absent), then the scan-and-save block guarded
by `if not metadata:`. Returns the in-memory map together with the document
content after startup. -/
def startup (loadedDoc : Option Metadata) (listing : List String)
    (dir : Dir) (gen : Nat → String) : Metadata × Option Metadata :=
  let metadata := loadedDoc.getD []
  if metadata.isEmpty then
    let m := scanProject dir gen listing 0 metadata
    (m, some m)
  else
    (metadata, loadedDoc)

/-- The spec invariant: the `filename` field is unique across all records. -/
def filenamesUnique (m : Metadata) : Prop :=
  (m.map (fun p => p.2.filename)).Nodup

instance (m : Metadata) : Decidable (filenamesUnique m) := by
  unfold filenamesUnique; infer_instance

/-! ### Demo data used by the witnesses -/

/-- A decoded 640×480 PNG used as concrete upload content. -/
def demoImg : PILImage := ⟨640, 480, "PNG", "RGB"⟩

/-- The empty server state (fresh deployment, no metadata document). -/
def st0 : ServerState := ⟨[], none, [], []⟩

/-- The record produced by uploading `demoImg` into `st0` with fresh id
`"id1"` and no caller-supplied filename. -/
def demoUploadedRecord : ImageRecord :=
  { id := "id1", filename := "id1.png", url := "/uploaded/id1.png",
    source := "uploaded", dimensions := ⟨100, 100⟩, format := "PNG",
    mode := "RGB", size_bytes := 1024, size_kb := 1,
    original_dimensions := some ⟨640, 480⟩ }

/-- The state after that upload. -/
def demoUploadState : ServerState :=
  (upload_image "k" (some "k") st0 "o.png" none (some demoImg) "id1" 1024 true).1

/-- Names `a`, `aa`, `aaa`, ... used as an injective uuid4 supply in
witnesses. -/
def natName (n : Nat) : String :=
  String.mk (List.replicate n 'a')

/-- Whether an upload call returned a record (no exception raised). -/
def uploadSucceeded (res : ServerState × Except HTTPException ImageRecord) : Bool :=
  match res.2 with
  | .ok _ => true
  | .error _ => false

/-- A pre-seeded project record used in witnesses. -/
def demoProjectRecord : ImageRecord :=
  { id := "pid", filename := "w.png", url := "/images/w.png",
    source := "project", dimensions := ⟨640, 480⟩, format := "PNG",
    mode := "RGB", size_bytes := 2048, size_kb := 2,
    original_dimensions := none }

/-- A project directory holding one decodable image. -/
def demoProjDir : Dir := [("w.png", ⟨demoImg, 2048, true⟩)]

/-- A server state holding only the pre-seeded project record. -/
def stProj : ServerState :=
  ⟨[("pid", demoProjectRecord)], some [("pid", demoProjectRecord)], [],
   demoProjDir⟩

/-- State after uploading with the caller-supplied filename
`"deadbeef.png"`. -/
def collisionState1 : ServerState :=
  (upload_image "k" (some "k") st0 "x.png" (some "deadbeef.png")
    (some demoImg) "ida" 7 true).1

/-- State after a second upload without a caller-supplied filename whose
fresh id happens to be `"deadbeef"`: the synthesized name collides. -/
def collisionState2 : ServerState :=
  (upload_image "k" (some "k") collisionState1 "y.png" none (some demoImg)
    "deadbeef" 7 true).1

/-- The record produced by uploading `demoImg` with a dot-free original
filename `"noext"`, no caller-supplied filename and fresh id `"id1"`. -/
def demoNoDotRecord : ImageRecord :=
  { id := "id1", filename := "id1.noext", url := "/uploaded/id1.noext",
    source := "uploaded", dimensions := ⟨100, 100⟩, format := "PNG",
    mode := "RGB", size_bytes := 64, size_kb := mkRat 6 100,
    original_dimensions := some ⟨640, 480⟩ }

/-- The state produced by a successful delete of record `r` held at key
`image_id`: the file is removed (a no-op when absent), the record erased,
and the document overwritten with the new map. -/
def deleteSuccessState (st : ServerState) (image_id : String)
    (r : ImageRecord) : ServerState :=
  { st with metadata := Metadata.erase st.metadata image_id,
            diskMeta := some (Metadata.erase st.metadata image_id),
            uploadedDir := Dir.removeFile st.uploadedDir r.filename }

/-! ### Association-list lemmas -/

theorem Metadata.lookup_eq_none :
    ∀ (m : Metadata) (k : String), (∀ p ∈ m, p.1 ≠ k) →
      Metadata.lookup m k = none
  | [], _, _ => rfl
  | (k', v') :: rest, k, h => by
    have hne : k ≠ k' := fun hh => h _ (List.mem_cons_self _ _) hh.symm
    simp only [Metadata.lookup, List.lookup_cons, beq_false_of_ne hne]
    exact Metadata.lookup_eq_none rest k fun q hq =>
      h q (List.mem_cons_of_mem _ hq)

theorem Metadata.lookup_insert_self (m : Metadata) (k : String) (v : ImageRecord) :
    (Metadata.insert m k v).lookup k = some v := by
  induction m with
  | nil => simp [Metadata.insert, Metadata.lookup, List.lookup_cons]
  | cons p rest ih =>
    obtain ⟨k', v'⟩ := p
    by_cases h : k' = k
    · simp [Metadata.insert, h, Metadata.lookup, List.lookup_cons]
    · simpa [Metadata.insert, h, Metadata.lookup, List.lookup_cons,
        beq_false_of_ne (Ne.symm h)] using ih

theorem Metadata.lookup_insert_ne (m : Metadata) (k k' : String) (v : ImageRecord)
    (h : k' ≠ k) : (Metadata.insert m k v).lookup k' = m.lookup k' := by
  induction m with
  | nil =>
    simp [Metadata.insert, Metadata.lookup, List.lookup_cons, beq_false_of_ne h]
  | cons p rest ih =>
    obtain ⟨k'', v''⟩ := p
    by_cases hk : k'' = k
    · subst hk
      simp [Metadata.insert, Metadata.lookup, List.lookup_cons, beq_false_of_ne h]
    · by_cases hk' : k' = k''
      · subst hk'
        simp [Metadata.insert, hk, Metadata.lookup, List.lookup_cons]
      · simpa [Metadata.insert, hk, Metadata.lookup, List.lookup_cons,
          beq_false_of_ne hk'] using ih

theorem Metadata.mem_insert {m : Metadata} {k : String} {v : ImageRecord}
    {p : String × ImageRecord} (hp : p ∈ Metadata.insert m k v) :
    p ∈ m ∨ p = (k, v) := by
  induction m with
  | nil =>
    simp only [Metadata.insert, List.mem_singleton] at hp
    exact Or.inr hp
  | cons q rest ih =>
    obtain ⟨k', v'⟩ := q
    by_cases h : k' = k
    · simp only [Metadata.insert, if_pos h] at hp
      rcases List.mem_cons.mp hp with hp | hp
      · exact Or.inr hp
      · exact Or.inl (List.mem_cons_of_mem _ hp)
    · simp only [Metadata.insert, if_neg h] at hp
      rcases List.mem_cons.mp hp with hp | hp
      · exact Or.inl (hp ▸ List.mem_cons_self _ _)
      · rcases ih hp with h' | h'
        · exact Or.inl (List.mem_cons_of_mem _ h')
        · exact Or.inr h'

theorem Metadata.erase_sublist (m : Metadata) (k : String) :
    List.Sublist (Metadata.erase m k) m := by
  induction m with
  | nil => simp [Metadata.erase]
  | cons p rest ih =>
    obtain ⟨k', v'⟩ := p
    by_cases h : k' = k
    · simp [Metadata.erase, h]
    · simp only [Metadata.erase, if_neg h]
      exact List.Sublist.cons₂ _ ih

theorem Metadata.lookup_erase_self (m : Metadata) (k : String)
    (hnd : (m.map Prod.fst).Nodup) : (Metadata.erase m k).lookup k = none := by
  induction m with
  | nil => rfl
  | cons p rest ih =>
    obtain ⟨k', v'⟩ := p
    simp only [List.map_cons, List.nodup_cons] at hnd
    by_cases h : k' = k
    · subst h
      simp only [Metadata.erase, if_pos rfl]
      exact Metadata.lookup_eq_none rest k' fun q hq hq1 =>
        hnd.1 (hq1 ▸ List.mem_map_of_mem Prod.fst hq)
    · simp only [Metadata.erase, if_neg h]
      simp only [Metadata.lookup, List.lookup_cons, beq_false_of_ne (Ne.symm h)]
      exact ih hnd.2

theorem Dir.lookup_missing_eq_none :
    ∀ (d : Dir) (fn : String), (∀ p ∈ d, p.1 ≠ fn) → Dir.lookup d fn = none
  | [], _, _ => rfl
  | (k, v) :: rest, fn, h => by
    have hne : fn ≠ k := fun hh => h _ (List.mem_cons_self _ _) hh.symm
    simp only [Dir.lookup, List.lookup_cons, beq_false_of_ne hne]
    exact Dir.lookup_missing_eq_none rest fn fun q hq => h q (List.mem_cons_of_mem _ hq)

theorem Dir.lookup_setFile_self (d : Dir) (fn : String) (f : StoredFile) :
    (Dir.setFile d fn f).lookup fn = some f := by
  induction d with
  | nil => simp [Dir.setFile, Dir.lookup, List.lookup_cons]
  | cons p rest ih =>
    obtain ⟨k, v⟩ := p
    by_cases h : k = fn
    · simp [Dir.setFile, h, Dir.lookup, List.lookup_cons]
    · simpa [Dir.setFile, h, Dir.lookup, List.lookup_cons,
        beq_false_of_ne (Ne.symm h)] using ih

theorem Dir.lookup_removeFile_setFile (d : Dir) (fn : String) (f : StoredFile)
    (hnd : (d.map Prod.fst).Nodup) :
    (Dir.removeFile (Dir.setFile d fn f) fn).lookup fn = none := by
  induction d with
  | nil => simp [Dir.setFile, Dir.removeFile, Dir.lookup]
  | cons p rest ih =>
    obtain ⟨k, v⟩ := p
    simp only [List.map_cons, List.nodup_cons] at hnd
    by_cases h : k = fn
    · subst h
      simp only [Dir.setFile, if_pos rfl, Dir.removeFile, if_pos rfl]
      exact Dir.lookup_missing_eq_none rest k fun q hq hq1 =>
        hnd.1 (hq1 ▸ List.mem_map_of_mem Prod.fst hq)
    · simp only [Dir.setFile, if_neg h, Dir.removeFile, if_neg h]
      simp only [Dir.lookup, List.lookup_cons, beq_false_of_ne (Ne.symm h)]
      exact ih hnd.2

theorem Dir.lookup_removeFile_self (d : Dir) (fn : String)
    (hnd : (d.map Prod.fst).Nodup) : (Dir.removeFile d fn).lookup fn = none := by
  induction d with
  | nil => rfl
  | cons p rest ih =>
    obtain ⟨k, v⟩ := p
    simp only [List.map_cons, List.nodup_cons] at hnd
    by_cases h : k = fn
    · subst h
      simp only [Dir.removeFile, if_pos rfl]
      exact Dir.lookup_missing_eq_none rest k fun q hq hq1 =>
        hnd.1 (hq1 ▸ List.mem_map_of_mem Prod.fst hq)
    · simp only [Dir.removeFile, if_neg h]
      simp only [Dir.lookup, List.lookup_cons, beq_false_of_ne (Ne.symm h)]
      exact ih hnd.2

theorem get_api_key_valid (api_key : String) (hak : api_key ≠ "") :
    get_api_key api_key (some api_key) = .ok api_key := by
  simp [get_api_key, hak]

theorem get_api_key_error_status (api_key : String) (header : Option String)
    (e : HTTPException) (h : get_api_key api_key header = .error e) :
    e.status = 403 := by
  simp only [get_api_key] at h
  split at h
  · simp only [Except.error.injEq] at h
    subst h; rfl
  · split at h
    · simp only [Except.error.injEq] at h
      subst h; rfl
    · simp at h

/-! ### Claim theorems -/

/-- C1: every upload request that succeeds stores and returns a record whose
`dimensions` field is the fixed 100×100 canvas, whose `source` is
`"uploaded"`, and whose `original_dimensions` field is the width and height
of the decoded image before resizing. -/
theorem upload_success_record (api_key : String) (header : Option String)
    (st : ServerState) (ffn : String) (ffm : Option String)
    (decoded : Option PILImage) (iid : String) (sz : Nat) (rd : Bool)
    (st' : ServerState) (r : ImageRecord)
    (h : upload_image api_key header st ffn ffm decoded iid sz rd = (st', .ok r)) :
    r.dimensions = ⟨100, 100⟩ ∧ r.source = "uploaded" ∧
    Metadata.lookup st'.metadata r.id = some r ∧
    ∃ image, decoded = some image ∧
      r.original_dimensions = some ⟨image.width, image.height⟩ := by
  simp only [upload_image] at h
  split at h
  · simp at h
  · split at h
    · simp at h
    · rename_i image
      split at h
      · simp at h
      · rename_i ufn hufn
        split at h
        · simp at h
        · rename_i info hinfo
          simp only [get_image_info, Dir.lookup_setFile_self] at hinfo
          split at hinfo
          · simp only [Option.some.injEq] at hinfo
            simp only [Prod.mk.injEq, Except.ok.injEq] at h
            obtain ⟨hst, hr⟩ := h
            subst hst
            subst hr
            refine ⟨?_, rfl, ?_, image, rfl, rfl⟩
            · rw [← hinfo]
              simp [PILImage.resize]
            · exact Metadata.lookup_insert_self _ _ _
          · simp at hinfo

/-- Witness for `upload_success_record` at a concrete successful upload. -/
theorem upload_success_record_witness :
    demoUploadedRecord.dimensions = ⟨100, 100⟩ ∧
    demoUploadedRecord.source = "uploaded" ∧
    Metadata.lookup demoUploadState.metadata demoUploadedRecord.id
      = some demoUploadedRecord ∧
    ∃ image, (some demoImg : Option PILImage) = some image ∧
      demoUploadedRecord.original_dimensions
        = some ⟨image.width, image.height⟩ :=
  upload_success_record "k" (some "k") st0 "o.png" none (some demoImg) "id1"
    1024 true demoUploadState demoUploadedRecord (by decide)

end ImageApi

namespace ImageApi

/-- C2: an upload whose caller-supplied target filename lacks an accepted
extension fails with 400, and one whose filename equals an existing record's
filename fails with 400; in both cases the returned state is exactly the
input state (no file written, metadata map unchanged, so in particular the
first record with that filename is unaffected). Stated for requests that
pass authentication and whose content decodes. -/
theorem upload_supplied_bad_filename (api_key : String) (st : ServerState)
    (ffn fn : String) (image : PILImage) (iid : String) (sz : Nat) (rd : Bool)
    (hak : api_key ≠ "") (hfn : fn ≠ "")
    (hbad : hasValidExt fn = false ∨
      (Metadata.values st.metadata).any (fun img => img.filename = fn) = true) :
    ∃ e : HTTPException, e.status = 400 ∧
      upload_image api_key (some api_key) st ffn (some fn) (some image) iid sz rd
        = (st, .error e) := by
  have hkey := get_api_key_valid api_key hak
  by_cases hv : hasValidExt fn = true
  · have hdup : (Metadata.values st.metadata).any
        (fun img => img.filename = fn) = true := by
      rcases hbad with hb | hb
      · rw [hv] at hb; cases hb
      · exact hb
    refine ⟨⟨400, "An image with filename " ++ fn ++ " already exists"⟩, rfl, ?_⟩
    simp only [upload_image, hkey, resolve_filename]
    simp [hfn, hv, hdup]
  · have hb : hasValidExt fn = false := by
      cases hvv : hasValidExt fn
      · rfl
      · exact absurd hvv hv
    refine ⟨⟨400,
      "Filename must have a valid image extension (.png, .jpg, .jpeg, .gif, .bmp)"⟩,
      rfl, ?_⟩
    simp only [upload_image, hkey, resolve_filename]
    simp [hfn, hb]

/-- Witness for `upload_supplied_bad_filename`: a bad-extension upload into
the empty state. -/
theorem upload_supplied_bad_filename_witness :
    ∃ e : HTTPException, e.status = 400 ∧
      upload_image "k" (some "k") st0 "o.png" (some "bad.txt") (some demoImg)
        "id2" 10 true = (st0, .error e) :=
  upload_supplied_bad_filename "k" st0 "o.png" "bad.txt" demoImg "id2" 10 true
    (by decide) (by decide) (Or.inl (by decide))

/-- C3: when the image file has been written but the inspection of the
written file fails, the just-written file is deleted again, the operation
fails with 500, and both the metadata map and the on-disk metadata document
are unchanged — no orphan file is left behind. -/
theorem upload_inspect_failure_cleanup (api_key : String) (st : ServerState)
    (ffn : String) (ffm : Option String) (image : PILImage) (iid : String)
    (sz : Nat) (ufn : String)
    (hak : api_key ≠ "")
    (hres : resolve_filename st ffm iid ffn = .ok ufn)
    (hnd : (st.uploadedDir.map Prod.fst).Nodup) :
    (upload_image api_key (some api_key) st ffn ffm (some image) iid sz false).2
      = .error ⟨500, "Failed to process uploaded image"⟩ ∧
    (upload_image api_key (some api_key) st ffn ffm (some image) iid sz false).1.metadata
      = st.metadata ∧
    (upload_image api_key (some api_key) st ffn ffm (some image) iid sz false).1.diskMeta
      = st.diskMeta ∧
    Dir.lookup
      (upload_image api_key (some api_key) st ffn ffm (some image) iid sz false).1.uploadedDir
      ufn = none := by
  have hkey := get_api_key_valid api_key hak
  have hinfo : get_image_info
      (Dir.setFile st.uploadedDir ufn ⟨image.resize 100 100, sz, false⟩) ufn
      = none := by
    simp [get_image_info, Dir.lookup_setFile_self]
  simp only [upload_image, hkey, hres, hinfo]
  exact ⟨trivial, trivial, trivial,
    Dir.lookup_removeFile_setFile st.uploadedDir ufn _ hnd⟩

/-- Witness for `upload_inspect_failure_cleanup`: an unreadable written file
during an upload into the empty state. -/
theorem upload_inspect_failure_cleanup_witness :
    (upload_image "k" (some "k") st0 "o.png" none (some demoImg) "id1" 9 false).2
      = .error ⟨500, "Failed to process uploaded image"⟩ ∧
    (upload_image "k" (some "k") st0 "o.png" none (some demoImg) "id1" 9 false).1.metadata
      = st0.metadata ∧
    (upload_image "k" (some "k") st0 "o.png" none (some demoImg) "id1" 9 false).1.diskMeta
      = st0.diskMeta ∧
    Dir.lookup
      (upload_image "k" (some "k") st0 "o.png" none (some demoImg) "id1" 9 false).1.uploadedDir
      "id1.png" = none :=
  upload_inspect_failure_cleanup "k" st0 "o.png" none demoImg "id1" 9 "id1.png"
    (by decide) (by decide) (by decide)

end ImageApi

namespace ImageApi

/-- C4: deleting an existing uploaded record with a valid API key removes its
file (tolerating absence), removes the record, persists the map, returns the
confirmation payload with id and filename, and a subsequent get on that id
fails with 404. -/
theorem delete_uploaded_success (api_key : String) (st : ServerState)
    (image_id : String) (r : ImageRecord)
    (hak : api_key ≠ "")
    (hrec : Metadata.lookup st.metadata image_id = some r)
    (hsrc : r.source = "uploaded")
    (hnd : (st.metadata.map Prod.fst).Nodup) :
    delete_image api_key (some api_key) st image_id
      = (deleteSuccessState st image_id r,
         .ok ⟨"Image deleted successfully", image_id, r.filename⟩) ∧
    get_image (deleteSuccessState st image_id r) image_id
      = .error ⟨404, "Image not found"⟩ := by
  have hkey := get_api_key_valid api_key hak
  have hproj : ¬ r.source = "project" := by rw [hsrc]; decide
  constructor
  · simp only [delete_image, hkey, hrec]
    simp [hproj, deleteSuccessState]
  · simp only [get_image, deleteSuccessState,
      Metadata.lookup_erase_self st.metadata image_id hnd]

/-- Witness for `delete_uploaded_success`: deleting the record created by the
demo upload. -/
theorem delete_uploaded_success_witness :
    delete_image "k" (some "k") demoUploadState "id1"
      = (deleteSuccessState demoUploadState "id1" demoUploadedRecord,
         .ok ⟨"Image deleted successfully", "id1", demoUploadedRecord.filename⟩) ∧
    get_image (deleteSuccessState demoUploadState "id1" demoUploadedRecord) "id1"
      = .error ⟨404, "Image not found"⟩ :=
  delete_uploaded_success "k" demoUploadState "id1" demoUploadedRecord
    (by decide) (by decide) (by decide) (by decide)

/-- C5: a delete request aimed at a record with source `"project"` always
fails with status 403 — whether or not the API key is valid — and the state
(metadata map, metadata document, both directories) is returned untouched. -/
theorem delete_project_forbidden (api_key : String) (header : Option String)
    (st : ServerState) (image_id : String) (r : ImageRecord)
    (hrec : Metadata.lookup st.metadata image_id = some r)
    (hsrc : r.source = "project") :
    ∃ e : HTTPException, e.status = 403 ∧
      delete_image api_key header st image_id = (st, .error e) := by
  cases hkey : get_api_key api_key header with
  | error e =>
    refine ⟨e, get_api_key_error_status api_key header e hkey, ?_⟩
    simp only [delete_image, hkey]
  | ok v =>
    refine ⟨⟨403, "Cannot delete project images"⟩, rfl, ?_⟩
    simp only [delete_image, hkey, hrec]
    simp [hsrc]

/-- Witness for `delete_project_forbidden`: deleting the pre-seeded project
record with a valid key. -/
theorem delete_project_forbidden_witness :
    ∃ e : HTTPException, e.status = 403 ∧
      delete_image "k" (some "k") stProj "pid" = (stProj, .error e) :=
  delete_project_forbidden "k" (some "k") stProj "pid" demoProjectRecord
    (by decide) (by decide)

/-- C6 counterexample: the claim says a header that is not string-equal to
the configured secret fails with the "invalid" message, but a present yet
empty header value is falsy in `if not api_key_header:` and produces the
"no key" message instead (the status is still 403). -/
theorem auth_empty_header_counterexample :
    ("" = "thisisapikey") = False ∧
    (delete_image "thisisapikey" (some "") st0 "x").2
      = .error ⟨403, "No API key provided"⟩ ∧
    "No API key provided" ≠ "Invalid API key" := by
  refine ⟨by simp, by decide, by decide⟩

/-- C6 amended: a mutating request (upload or delete) whose `X-API-Key`
header is missing or empty fails with 403 and the "no key" message, and one
whose header is non-empty but not string-equal to the configured secret
fails with 403 and the "invalid" message; in all these cases the returned
state is exactly the input state (metadata map, metadata document and image
directories unchanged). -/
theorem auth_failure_no_state_change (api_key : String) (header : Option String)
    (st : ServerState) (image_id ffn : String) (ffm : Option String)
    (decoded : Option PILImage) (iid : String) (sz : Nat) (rd : Bool)
    (hbad : header.getD "" = "" ∨ header.getD "" ≠ api_key) :
    ∃ e : HTTPException, e.status = 403 ∧
      e.detail = (if header.getD "" = "" then "No API key provided"
                  else "Invalid API key") ∧
      delete_image api_key header st image_id = (st, .error e) ∧
      upload_image api_key header st ffn ffm decoded iid sz rd
        = (st, .error e) := by
  by_cases h0 : header.getD "" = ""
  · have hkey : get_api_key api_key header
        = .error ⟨403, "No API key provided"⟩ := by
      simp [get_api_key, h0]
    refine ⟨⟨403, "No API key provided"⟩, rfl, by simp [h0], ?_, ?_⟩
    · simp only [delete_image, hkey]
    · simp only [upload_image, hkey]
  · have hne : header.getD "" ≠ api_key := by
      rcases hbad with hb | hb
      · exact absurd hb h0
      · exact hb
    have hkey : get_api_key api_key header
        = .error ⟨403, "Invalid API key"⟩ := by
      simp [get_api_key, h0, hne]
    refine ⟨⟨403, "Invalid API key"⟩, rfl, by simp [h0], ?_, ?_⟩
    · simp only [delete_image, hkey]
    · simp only [upload_image, hkey]

/-- Witness for `auth_failure_no_state_change`: a delete and an upload with a
wrong non-empty key against the project-seeded state. -/
theorem auth_failure_no_state_change_witness :
    ∃ e : HTTPException, e.status = 403 ∧
      e.detail = (if (some "wrong").getD "" = "" then "No API key provided"
                  else "Invalid API key") ∧
      delete_image "k" (some "wrong") stProj "pid" = (stProj, .error e) ∧
      upload_image "k" (some "wrong") stProj "o.png" none (some demoImg)
        "id9" 3 true = (stProj, .error e) :=
  auth_failure_no_state_change "k" (some "wrong") stProj "pid" "o.png" none
    (some demoImg) "id9" 3 true (Or.inr (by decide))

end ImageApi

namespace ImageApi

theorem natName_injective : Function.Injective natName := by
  intro a b h
  have h2 := congrArg String.length h
  simpa [natName, String.length] using h2

/-- An entry already present in the map survives the startup scan as long as
the ids drawn later differ from its key. -/
theorem scanProject_lookup_preserved (dir : Dir) (gen : Nat → String)
    (l : List String) (n : Nat) (m : Metadata) (key : String) (r : ImageRecord)
    (hl : Metadata.lookup m key = some r)
    (hfresh : ∀ k, n ≤ k → gen k ≠ key) :
    Metadata.lookup (scanProject dir gen l n m) key = some r := by
  induction l generalizing n m with
  | nil => simpa [scanProject] using hl
  | cons fn rest ih =>
    simp only [scanProject]
    split
    · split
      · apply ih
        · rw [Metadata.lookup_insert_ne]
          · exact hl
          · exact fun hk => hfresh n le_rfl hk.symm
        · exact fun k hk => hfresh k (Nat.le_of_succ_le hk)
      · exact ih _ _ hl fun k hk => hfresh k (Nat.le_of_succ_le hk)
    · exact ih _ _ hl hfresh

/-- Every listed filename with an accepted extension and inspectable file
gets a project record during the startup scan. -/
theorem scanProject_registers (dir : Dir) (gen : Nat → String)
    (hinj : Function.Injective gen) :
    ∀ (l : List String) (n : Nat) (m : Metadata) (fn : String),
      fn ∈ l → hasValidExt fn = true → (get_image_info dir fn).isSome →
      ∃ id r, Metadata.lookup (scanProject dir gen l n m) id = some r ∧
        r.filename = fn ∧ r.source = "project" := by
  intro l
  induction l with
  | nil =>
    intro n m fn h
    cases h
  | cons g rest ih =>
    intro n m fn hmem hval hsome
    rcases List.mem_cons.mp hmem with hfv | hmem'
    · subst hfv
      obtain ⟨info, hinfo⟩ := Option.isSome_iff_exists.mp hsome
      simp only [scanProject, hval, if_pos, hinfo]
      refine ⟨gen n, projectRecord (gen n) fn info, ?_, rfl, rfl⟩
      apply scanProject_lookup_preserved
      · exact Metadata.lookup_insert_self _ _ _
      · intro k hk hke
        have := hinj hke
        omega
    · simp only [scanProject]
      split
      · split
        · exact ih (n + 1) _ fn hmem' hval hsome
        · exact ih (n + 1) m fn hmem' hval hsome
      · exact ih n m fn hmem' hval hsome

/-- C7: at startup the project scan runs exactly when the loaded metadata
document is absent or empty. With a non-empty document the map is the loaded
one and the document untouched (no re-scan, no new project records); with an
absent/empty document every listed file with an accepted extension and
inspectable content gets a `source = "project"` record, and the scanned map
is saved. -/
theorem startup_scan_iff_empty (loadedDoc : Option Metadata)
    (listing : List String) (dir : Dir) (gen : Nat → String)
    (hinj : Function.Injective gen) :
    ((loadedDoc.getD []) ≠ [] →
      startup loadedDoc listing dir gen = (loadedDoc.getD [], loadedDoc)) ∧
    ((loadedDoc.getD []) = [] →
      (startup loadedDoc listing dir gen).2
        = some (startup loadedDoc listing dir gen).1 ∧
      ∀ fn ∈ listing, hasValidExt fn = true → (get_image_info dir fn).isSome →
        ∃ id r,
          Metadata.lookup (startup loadedDoc listing dir gen).1 id = some r ∧
          r.filename = fn ∧ r.source = "project") := by
  constructor
  · intro hne
    simp [startup, List.isEmpty_iff, hne]
  · intro hemp
    simp only [startup, hemp, List.isEmpty_nil, if_pos]
    exact ⟨by trivial, fun fn hmem hval hsome =>
      scanProject_registers dir gen hinj listing 0 [] fn hmem hval hsome⟩

/-- Witness for `startup_scan_iff_empty`: a restart with a non-empty loaded
document changes nothing, and a first start from an absent document
registers the one listed project image. -/
theorem startup_scan_iff_empty_witness :
    (startup (some [("pid", demoProjectRecord)]) ["w.png"] demoProjDir natName
      = ([("pid", demoProjectRecord)], some [("pid", demoProjectRecord)])) ∧
    ∃ id r,
      Metadata.lookup (startup none ["w.png"] demoProjDir natName).1 id
        = some r ∧ r.filename = "w.png" ∧ r.source = "project" :=
  ⟨(startup_scan_iff_empty (some [("pid", demoProjectRecord)]) ["w.png"]
      demoProjDir natName natName_injective).1 (by decide),
   ((startup_scan_iff_empty none ["w.png"] demoProjDir natName
      natName_injective).2 rfl).2 "w.png" (by decide) (by decide) (by decide)⟩

end ImageApi

namespace ImageApi

/-- Inserting a record whose filename occurs in no existing record keeps the
filenames duplicate-free. -/
theorem filenamesUnique_insert (m : Metadata) (k : String) (v : ImageRecord)
    (hm : filenamesUnique m) (hv : ∀ p ∈ m, p.2.filename ≠ v.filename) :
    filenamesUnique (Metadata.insert m k v) := by
  induction m with
  | nil => simp [Metadata.insert, filenamesUnique]
  | cons q rest ih =>
    obtain ⟨k', v'⟩ := q
    simp only [filenamesUnique, List.map_cons, List.nodup_cons] at hm
    by_cases h : k' = k
    · simp only [Metadata.insert, if_pos h, filenamesUnique, List.map_cons,
        List.nodup_cons]
      refine ⟨?_, hm.2⟩
      intro hmem
      obtain ⟨p, hp, hpe⟩ := List.mem_map.mp hmem
      exact hv p (List.mem_cons_of_mem _ hp) hpe
    · simp only [Metadata.insert, if_neg h, filenamesUnique, List.map_cons,
        List.nodup_cons]
      refine ⟨?_, ih hm.2 fun p hp => hv p (List.mem_cons_of_mem _ hp)⟩
      intro hmem
      obtain ⟨p, hp, hpe⟩ := List.mem_map.mp hmem
      rcases Metadata.mem_insert hp with hp' | hp'
      · exact hm.1 (hpe ▸ List.mem_map_of_mem _ hp')
      · apply hv (k', v') (List.mem_cons_self _ _)
        rw [← hpe, hp']

/-- Erasing a record keeps the filenames duplicate-free. -/
theorem filenamesUnique_erase (m : Metadata) (k : String)
    (hm : filenamesUnique m) : filenamesUnique (Metadata.erase m k) :=
  List.Nodup.sublist ((Metadata.erase_sublist m k).map _) hm

/-- The startup scan keeps filenames duplicate-free when the directory
listing has no duplicates and no existing record uses a listed name. -/
theorem filenamesUnique_scanProject (dir : Dir) (gen : Nat → String) :
    ∀ (l : List String) (n : Nat) (m : Metadata),
      l.Nodup → filenamesUnique m → (∀ p ∈ m, p.2.filename ∉ l) →
      filenamesUnique (scanProject dir gen l n m) := by
  intro l
  induction l with
  | nil =>
    intro n m _ hm _
    simpa [scanProject] using hm
  | cons fn rest ih =>
    intro n m hl hm hout
    simp only [scanProject]
    split
    · split
      · rename_i info hinfo
        apply ih (n + 1)
        · exact (List.nodup_cons.mp hl).2
        · apply filenamesUnique_insert m (gen n) _ hm
          intro p hp hpe
          apply hout p hp
          rw [show (projectRecord (gen n) fn info).filename = fn from rfl] at hpe
          rw [hpe]
          exact List.mem_cons_self _ _
        · intro p hp
          rcases Metadata.mem_insert hp with hp' | hp'
          · intro hmem
            exact hout p hp' (List.mem_cons_of_mem _ hmem)
          · rw [hp']
            exact (List.nodup_cons.mp hl).1
      · apply ih (n + 1) m (List.nodup_cons.mp hl).2 hm
        intro p hp hmem
        exact hout p hp (List.mem_cons_of_mem _ hmem)
    · apply ih n m (List.nodup_cons.mp hl).2 hm
      intro p hp hmem
      exact hout p hp (List.mem_cons_of_mem _ hmem)

/-- A filename accepted by the resolution step is free: either the duplicate
check ruled collisions out, or (synthesized branch) freshness of
`{id}.{ext}` is assumed. -/
theorem resolve_filename_fresh (st : ServerState) (ffm : Option String)
    (iid ffn ufn : String)
    (h : resolve_filename st ffm iid ffn = .ok ufn)
    (hfresh : ffm.getD "" = "" →
      ∀ p ∈ st.metadata, p.2.filename ≠ iid ++ "." ++ lastDotComponent ffn) :
    ∀ p ∈ st.metadata, p.2.filename ≠ ufn := by
  simp only [resolve_filename] at h
  split at h
  · split at h
    · simp at h
    · split at h
      · simp at h
      · rename_i hdup
        simp only [Except.ok.injEq] at h
        subst h
        intro p hp hpe
        apply hdup
        simp only [List.any_eq_true, decide_eq_true_eq]
        exact ⟨p.2, List.mem_map_of_mem Prod.snd hp, hpe⟩
  · rename_i h0
    simp only [Except.ok.injEq] at h
    subst h
    exact hfresh (by simpa using h0)

/-- C8 counterexample: two successful uploads from the empty state — the
first with the caller-supplied filename `"deadbeef.png"`, the second with no
supplied filename but fresh id `"deadbeef"` and an uploaded file named with
extension `png` — leave the metadata map with two records carrying the same
filename, so the synthesized `{id}.{extension}` branch does not preserve
filename uniqueness. -/
theorem filename_collision_counterexample :
    uploadSucceeded (upload_image "k" (some "k") st0 "x.png"
        (some "deadbeef.png") (some demoImg) "ida" 7 true) = true ∧
    uploadSucceeded (upload_image "k" (some "k") collisionState1 "y.png" none
        (some demoImg) "deadbeef" 7 true) = true ∧
    collisionState2.metadata.map (fun p => p.2.filename)
      = ["deadbeef.png", "deadbeef.png"] ∧
    ¬ filenamesUnique collisionState2.metadata := by
  exact ⟨by decide, by decide, by decide, by decide⟩

/-- C8 amended: filename uniqueness is established by the startup scan from
an empty document (given a duplicate-free directory listing) and preserved
by delete and by upload — unconditionally in the caller-supplied-filename
branch, and in the synthesized branch under the proviso that the fresh
`{id}.{extension}` name differs from every stored filename. -/
theorem filename_uniqueness_amended (api_key : String) (header : Option String)
    (st : ServerState) (ffn : String) (ffm : Option String)
    (decoded : Option PILImage) (iid : String) (sz : Nat) (rd : Bool)
    (image_id : String) (listing : List String) (dir : Dir)
    (gen : Nat → String)
    (hl : listing.Nodup)
    (hm : filenamesUnique st.metadata)
    (hfresh : ffm.getD "" = "" →
      ∀ p ∈ st.metadata, p.2.filename ≠ iid ++ "." ++ lastDotComponent ffn) :
    filenamesUnique (startup none listing dir gen).1 ∧
    filenamesUnique
      ((upload_image api_key header st ffn ffm decoded iid sz rd).1.metadata) ∧
    filenamesUnique ((delete_image api_key header st image_id).1.metadata) := by
  refine ⟨?_, ?_, ?_⟩
  · simp only [startup, Option.getD_none, List.isEmpty_nil, if_pos]
    exact filenamesUnique_scanProject dir gen listing 0 [] hl
      (by simp [filenamesUnique]) (by simp)
  · simp only [upload_image]
    split
    · exact hm
    · split
      · exact hm
      · split
        · exact hm
        · rename_i ufn hufn
          split
          · exact hm
          · apply filenamesUnique_insert _ _ _ hm
            intro p hp
            exact resolve_filename_fresh st ffm iid ffn ufn hufn hfresh p hp
  · simp only [delete_image]
    split
    · exact hm
    · split
      · exact hm
      · split
        · exact hm
        · exact filenamesUnique_erase _ _ hm

/-- Witness for `filename_uniqueness_amended` on concrete startup, upload and
delete calls. -/
theorem filename_uniqueness_amended_witness :
    filenamesUnique (startup none ["w.png"] demoProjDir natName).1 ∧
    filenamesUnique ((upload_image "k" (some "k") demoUploadState "n.png" none
      (some demoImg) "id7" 5 true).1.metadata) ∧
    filenamesUnique
      ((delete_image "k" (some "k") demoUploadState "id1").1.metadata) :=
  filename_uniqueness_amended "k" (some "k") demoUploadState "n.png" none
    (some demoImg) "id7" 5 true "id1" ["w.png"] demoProjDir natName
    (by decide) (by decide) (fun _ => by decide)

end ImageApi

namespace ImageApi

/-- C9: every mutating operation that completes successfully ends by
overwriting the metadata document with the full current map, so afterwards
the in-memory map and the on-disk document are equal. -/
theorem mutation_persists_metadata (api_key : String) (header : Option String)
    (st : ServerState) (ffn : String) (ffm : Option String)
    (decoded : Option PILImage) (iid : String) (sz : Nat) (rd : Bool)
    (image_id : String) :
    (∀ st' r, upload_image api_key header st ffn ffm decoded iid sz rd
        = (st', .ok r) → st'.diskMeta = some st'.metadata) ∧
    (∀ st' d, delete_image api_key header st image_id = (st', .ok d) →
      st'.diskMeta = some st'.metadata) := by
  constructor
  · intro st' r h
    simp only [upload_image] at h
    split at h
    · simp at h
    · split at h
      · simp at h
      · split at h
        · simp at h
        · split at h
          · simp at h
          · simp only [Prod.mk.injEq] at h
            obtain ⟨hst, _⟩ := h
            subst hst
            rfl
  · intro st' d h
    simp only [delete_image] at h
    split at h
    · simp at h
    · split at h
      · simp at h
      · split at h
        · simp at h
        · simp only [Prod.mk.injEq] at h
          obtain ⟨hst, _⟩ := h
          subst hst
          rfl

/-- Witness for `mutation_persists_metadata`: the demo upload and the delete
of the uploaded record. -/
theorem mutation_persists_metadata_witness :
    demoUploadState.diskMeta = some demoUploadState.metadata ∧
    (deleteSuccessState demoUploadState "id1" demoUploadedRecord).diskMeta
      = some (deleteSuccessState demoUploadState "id1" demoUploadedRecord).metadata :=
  ⟨(mutation_persists_metadata "k" (some "k") st0 "o.png" none (some demoImg)
      "id1" 1024 true "?").1 demoUploadState demoUploadedRecord (by decide),
   (mutation_persists_metadata "k" (some "k") demoUploadState "o.png" none
      (some demoImg) "id9" 1 true "id1").2
      (deleteSuccessState demoUploadState "id1" demoUploadedRecord)
      ⟨"Image deleted successfully", "id1", demoUploadedRecord.filename⟩
      (by decide)⟩

/-- C10: an upload without a caller-supplied target filename performs no
extension validation and no duplicate check: it never fails with 400, and on
success the destination filename is the fresh id, a dot, and the part of the
uploaded file's original filename after its last dot. -/
theorem upload_synthesized_filename (api_key : String) (header : Option String)
    (st : ServerState) (ffn : String) (ffm : Option String)
    (decoded : Option PILImage) (iid : String) (sz : Nat) (rd : Bool)
    (hffm : ffm.getD "" = "") :
    (∀ st' e, upload_image api_key header st ffn ffm decoded iid sz rd
        = (st', .error e) → e.status ≠ 400) ∧
    (∀ st' r, upload_image api_key header st ffn ffm decoded iid sz rd
        = (st', .ok r) →
      r.filename = iid ++ "." ++ lastDotComponent ffn) := by
  have hres : resolve_filename st ffm iid ffn
      = .ok (iid ++ "." ++ lastDotComponent ffn) := by
    simp [resolve_filename, hffm]
  constructor
  · intro st' e h
    simp only [upload_image, hres] at h
    split at h
    · rename_i e' hkey
      simp only [Prod.mk.injEq, Except.error.injEq] at h
      obtain ⟨_, he⟩ := h
      subst he
      rw [get_api_key_error_status api_key header e' hkey]
      decide
    · split at h
      · simp only [Prod.mk.injEq, Except.error.injEq] at h
        obtain ⟨_, he⟩ := h
        subst he
        decide
      · split at h
        · simp only [Prod.mk.injEq, Except.error.injEq] at h
          obtain ⟨_, he⟩ := h
          subst he
          decide
        · simp at h
  · intro st' r h
    simp only [upload_image, hres] at h
    split at h
    · simp at h
    · split at h
      · simp at h
      · split at h
        · simp at h
        · simp only [Prod.mk.injEq, Except.ok.injEq] at h
          obtain ⟨_, hr⟩ := h
          subst hr
          rfl

/-- Witness for `upload_synthesized_filename`: a decode failure is a 500
(never 400), and a successful dot-free upload gets filename
`"id1.noext"`. -/
theorem upload_synthesized_filename_witness :
    (⟨500, "cannot identify image file"⟩ : HTTPException).status ≠ 400 ∧
    demoNoDotRecord.filename = "id1" ++ "." ++ lastDotComponent "noext" :=
  ⟨(upload_synthesized_filename "k" (some "k") st0 "noext" none none "idz" 0
      true rfl).1 st0 ⟨500, "cannot identify image file"⟩ (by decide),
   (upload_synthesized_filename "k" (some "k") st0 "noext" none
      (some demoImg) "id1" 64 true rfl).2
      (upload_image "k" (some "k") st0 "noext" none (some demoImg) "id1" 64
        true).1 demoNoDotRecord (by decide)⟩

end ImageApi
